/-
  Verification of the news-search web app (src/app.py) against its
  natural-language specification.

  Shallow embedding notes:
  - Python strings are modelled as Lean `String` / `List Char`; `str.strip`,
    `str.lower`, `str.split` are re-implemented over the ASCII whitespace set
    (the Unicode-only whitespace of Python is not exercised by any claim).
  - The two effectful inputs of the catalog loader (HTTP fetch of the Google
    Sheet and reading of the first local CSV file) are modelled as fields of
    an explicit environment `LoaderEnv`: each is an `Except`, the `.error`
    case standing for a raised exception of the corresponding Python block.
    CSV text decoding (csv.DictReader) is absorbed into the environment:
    sources yield their rows directly as association lists.
  - `time.time()` is modelled as an explicit integer `now` parameter; the
    process-wide `_cache` dict is modelled as explicit state passing.
  - `json.loads` is modelled by a fueled recursive-descent parser following
    the Python json grammar (including NaN/Infinity); CPython recursion
    limits (RecursionError on pathologically nested input) are not modelled.
  - `re.sub(pattern, '', s)` for the two fence patterns is modelled by
    `sub_run`, a left-to-right non-overlapping scan with greedy whitespace
    consumption after each match, exactly re.sub's semantics for these
    patterns.
-/
import Mathlib

set_option maxRecDepth 4096

/-! ### Python string primitives -/

/-- The characters matched by Python's `\s` (ASCII part) and stripped by
`str.strip()`. -/
def pySpace (c : Char) : Bool :=
  c = ' ' || c = '\t' || c = '\n' || c = '\r' || c = '\x0b' || c = '\x0c'

/-- `str.lstrip()` on character lists. -/
def lstrip (s : List Char) : List Char := s.dropWhile pySpace

/-- `str.rstrip()` on character lists. -/
def rstrip (s : List Char) : List Char := (s.reverse.dropWhile pySpace).reverse

/-- `str.strip()` on character lists. -/
def stripL (s : List Char) : List Char := rstrip (lstrip s)

/-- `str.strip()` on strings. -/
def pyStrip (s : String) : String := ⟨stripL s.data⟩

/-- `str.lower()` (ASCII; Python's Unicode case folding is not exercised by
any claim). -/
def pyLower (s : String) : String := ⟨s.data.map Char.toLower⟩

/-- Python's `str.split(sep)` for a one-character separator:
`"".split(',') = ['']`, `"a,,b".split(',') = ['a', '', 'b']`. -/
def splitChar (sep : Char) : List Char → List (List Char)
  | [] => [[]]
  | c :: rest =>
    if c = sep then [] :: splitChar sep rest
    else
      match splitChar sep rest with
      | [] => [[c]]
      | grp :: grps => (c :: grp) :: grps

/-- `s.split(sep)` on strings. -/
def pySplit (s : String) (sep : Char) : List String :=
  (splitChar sep s.data).map (fun grp => ⟨grp⟩)

/-! ### Data model: article records (src/app.py, parser_csv) -/

/-- An article record as built by `parser_csv`:
`{"titre": ..., "description": ..., "tags": ..., "url": ...}`. -/
structure Article where
  titre : String
  description : String
  tags : String
  url : String
deriving DecidableEq, Repr

/-- One CSV row as produced by `csv.DictReader`: an association list from
column names to cell values. -/
def Row : Type := List (String × String)

/-- Python's `dict.get(key, default)`. -/
def dictGet (ligne : Row) (key default : String) : String :=
  match ligne.find? (fun kv => kv.1 = key) with
  | some kv => kv.2
  | none => default

/-- `parser_csv`: maps each row into an Article with the source's defaults
("Sans titre", "Pas de description", empty tags, "#"). -/
def parser_csv (reader : List Row) : List Article :=
  reader.map (fun ligne =>
    { titre := dictGet ligne "Titre" "Sans titre"
      description := dictGet ligne "Description" "Pas de description"
      tags := dictGet ligne "Tags" ""
      url := dictGet ligne "URL" "#" })

/-! ### Catalog loader (charger_articles) -/

/-- Environment of one `charger_articles` call: the configuration and the
outcome of each effectful step.
`sheetUrl` is `os.getenv("GOOGLE_SHEET_CSV_URL")` (`none` = unset).
`fetchSheet` is the combined outcome of `requests.get`, `raise_for_status`,
UTF-8 decoding and `csv.DictReader` over the body: `.error` stands for any
raised exception in that block.
`localCsvFiles` is the result of the `glob.glob(... "*.csv")` call.
`readLocalCsv` is the outcome of opening and parsing the first local file;
`.error` stands for any raised exception in that block. -/
structure LoaderEnv where
  sheetUrl : Option String
  fetchSheet : Except String (List Row)
  localCsvFiles : List String
  readLocalCsv : Except String (List Row)

/-- The `if sheet_url:` block of `charger_articles`: `some articles` on a
successful non-empty sheet load (the early `return`), `none` when the block
falls through (unset or empty URL, raised exception caught by the `except`,
or an empty parse). -/
def tentative_sheet (env : LoaderEnv) : Option (List Article) :=
  match env.sheetUrl with
  | some url =>
    if url ≠ "" then
      match env.fetchSheet with
      | .ok rows =>
        let articles := parser_csv rows
        if articles ≠ [] then some articles else none
      | .error _ => none
    else none
  | none => none

/-- `charger_articles`: try the Google Sheet (when a non-empty URL is
configured), fall back to the first local CSV file, degrade to `[]`.
The two `try/except` blocks of the source appear as the `.error` branches;
the result is an `Except` so that "never raises" is a provable statement
rather than a typing artifact. Diagnostic `print` calls are ignored. -/
def charger_articles (env : LoaderEnv) : Except String (List Article) :=
  match tentative_sheet env with
  | some articles => .ok articles
  | none =>
    if env.localCsvFiles = [] then .ok []
    else
      match env.readLocalCsv with
      | .ok rows => .ok (parser_csv rows)
      | .error _ => .ok []

/-! ### Tag extractor (extraire_tags_uniques) -/

/-- The non-empty stripped comma-separated tokens of one article's tags
field. -/
def tokensDe (art : Article) : List String :=
  ((pySplit art.tags ',').map pyStrip).filter (fun t => t ≠ "")

/-- All tag tokens of a list of articles, in traversal order. -/
def tousLesTags (articles : List Article) : List String :=
  articles.foldr (fun art acc => tokensDe art ++ acc) []

/-- Lexicographic (code-point) string comparison, Python's `<=` on `str`. -/
def charsLe : List Char → List Char → Bool
  | [], _ => true
  | _ :: _, [] => false
  | a :: as, b :: bs => if a < b then true else if a = b then charsLe as bs else false

/-- The comparison used by `sorted(tags_set, key=str.lower)`. -/
def rTag (a b : String) : Prop := charsLe (pyLower a).data (pyLower b).data = true

instance : DecidableRel rTag := fun a b =>
  inferInstanceAs (Decidable (charsLe (pyLower a).data (pyLower b).data = true))

/-- `extraire_tags_uniques`: accumulate the tokens into a set, return them
sorted case-insensitively. Python's set iteration order (which only breaks
ties between strings with equal lowercasing) is determinized here by
deduplication order; every property claimed of the result is independent of
that order. -/
def extraire_tags_uniques (articles : List Article) : List String :=
  List.insertionSort rTag (tousLesTags articles).dedup

/-! ### Cache (CACHE_TTL, _cache, get_donnees) -/

/-- `CACHE_TTL = 300`. -/
def CACHE_TTL : Int := 300

/-- The process-wide `_cache` dict. `time.time()` values are modelled as
integers. -/
structure EtatCache where
  articles : List Article
  tags : List String
  last_refresh : Int
deriving DecidableEq, Repr

/-- The module-level initial cache: `{"articles": [], "tags": [], "last_refresh": 0}`. -/
def cache_initial : EtatCache := { articles := [], tags := [], last_refresh := 0 }

/-- `get_donnees`, with explicit state passing: takes the loader environment,
the current time and the cache, returns the `(articles, tags)` pair, the
cache after the call, and the number of `charger_articles` invocations
performed (0 or 1), so that "exactly one reload" is statable. -/
def get_donnees (env : LoaderEnv) (now : Int) (cache : EtatCache) :
    Except String ((List Article × List String) × EtatCache × Nat) :=
  if now - cache.last_refresh > CACHE_TTL ∨ cache.articles = [] then
    match charger_articles env with
    | .error e => .error e
    | .ok articles =>
      let nouveau : EtatCache :=
        { articles := articles
          tags := extraire_tags_uniques articles
          last_refresh := now }
      .ok ((nouveau.articles, nouveau.tags), nouveau, 1)
  else
    .ok ((cache.articles, cache.tags), cache, 0)

/-! ### JSON values and `json.loads` -/

/-- A decoded JSON value. Numbers keep their source numeral (no claim
inspects numeric values); objects keep their members in source order. -/
inductive Json where
  | null : Json
  | bool : Bool → Json
  | num : String → Json
  | str : String → Json
  | arr : List Json → Json
  | obj : List (String × Json) → Json

/-- `isinstance(x, list)` on a decoded JSON value. -/
def estTableau : Json → Bool
  | .arr _ => true
  | _ => false

/-- The whitespace skipped between JSON tokens (`' '`, `'\t'`, `'\n'`, `'\r'`). -/
def jsonWs (c : Char) : Bool := c = ' ' || c = '\t' || c = '\n' || c = '\r'

/-- Skip inter-token whitespace. -/
def skipWs (s : List Char) : List Char := s.dropWhile jsonWs

/-- Value of a hexadecimal digit. -/
def hexVal (c : Char) : Option Nat :=
  if '0' ≤ c ∧ c ≤ '9' then some (c.toNat - 48)
  else if 'a' ≤ c ∧ c ≤ 'f' then some (c.toNat - 87)
  else if 'A' ≤ c ∧ c ≤ 'F' then some (c.toNat - 70)
  else none

/-- Scan a JSON string body (after the opening quote), handling the escape
sequences accepted by `json.loads` in strict mode and rejecting raw control
characters. A `\uXXXX` high surrogate followed by a low surrogate is
combined; a lone surrogate (kept verbatim by Python, not representable as a
`Char`) is replaced by U+FFFD — no claim exercises this corner. -/
def parseJString : Nat → List Char → List Char → Except String (String × List Char)
  | 0, _, _ => .error "profondeur maximale atteinte"
  | _ + 1, _, [] => .error "Unterminated string"
  | fuel + 1, acc, c :: rest =>
    if c = '"' then .ok (⟨acc.reverse⟩, rest)
    else if c = '\\' then
      match rest with
      | [] => .error "Unterminated string"
      | e :: rest2 =>
        if e = '"' then parseJString fuel ('"' :: acc) rest2
        else if e = '\\' then parseJString fuel ('\\' :: acc) rest2
        else if e = '/' then parseJString fuel ('/' :: acc) rest2
        else if e = 'b' then parseJString fuel ('\x08' :: acc) rest2
        else if e = 'f' then parseJString fuel ('\x0c' :: acc) rest2
        else if e = 'n' then parseJString fuel ('\n' :: acc) rest2
        else if e = 'r' then parseJString fuel ('\r' :: acc) rest2
        else if e = 't' then parseJString fuel ('\t' :: acc) rest2
        else if e = 'u' then
          match rest2 with
          | h1 :: h2 :: h3 :: h4 :: rest3 =>
            match hexVal h1, hexVal h2, hexVal h3, hexVal h4 with
            | some a, some b, some c3, some d =>
              let n := 4096 * a + 256 * b + 16 * c3 + d
              if 0xD800 ≤ n ∧ n ≤ 0xDBFF then
                match rest3 with
                | '\\' :: 'u' :: g1 :: g2 :: g3 :: g4 :: rest4 =>
                  match hexVal g1, hexVal g2, hexVal g3, hexVal g4 with
                  | some a2, some b2, some c2, some d2 =>
                    let m := 4096 * a2 + 256 * b2 + 16 * c2 + d2
                    if 0xDC00 ≤ m ∧ m ≤ 0xDFFF then
                      let code := 0x10000 + (n - 0xD800) * 1024 + (m - 0xDC00)
                      parseJString fuel (Char.ofNat code :: acc) rest4
                    else parseJString fuel ('\uFFFD' :: acc) rest3
                  | _, _, _, _ => parseJString fuel ('\uFFFD' :: acc) rest3
                | _ => parseJString fuel ('\uFFFD' :: acc) rest3
              else if 0xDC00 ≤ n ∧ n ≤ 0xDFFF then
                parseJString fuel ('\uFFFD' :: acc) rest3
              else parseJString fuel (Char.ofNat n :: acc) rest3
            | _, _, _, _ => .error "Invalid \\uXXXX escape"
          | _ => .error "Invalid \\uXXXX escape"
        else .error "Invalid \\escape"
    else if c.toNat < 32 then .error "Invalid control character"
    else parseJString fuel (c :: acc) rest

/-- Scan a JSON numeral, following json's NUMBER_RE
`(-?(?:0|[1-9]\d*))(\.\d+)?([eE][-+]?\d+)?`: the longest prefix matching the
regex is consumed (so `"01"` parses as `0` leaving `1`, which the top level
then rejects as extra data). -/
def parseNumber (s : List Char) : Except String (Json × List Char) :=
  let signe : List Char × List Char :=
    match s with
    | '-' :: t => (['-'], t)
    | _ => ([], s)
  match signe.2 with
  | [] => .error "Expecting value"
  | c :: _ =>
    if ¬ c.isDigit then .error "Expecting value"
    else
      let ip : List Char × List Char :=
        match signe.2 with
        | '0' :: t => (['0'], t)
        | u => u.span Char.isDigit
      let fp : List Char × List Char :=
        match ip.2 with
        | '.' :: t =>
          let ds := t.span Char.isDigit
          if ds.1 = [] then ([], ip.2) else ('.' :: ds.1, ds.2)
        | _ => ([], ip.2)
      let ep : List Char × List Char :=
        match fp.2 with
        | e :: t =>
          if e = 'e' ∨ e = 'E' then
            let sg : List Char × List Char :=
              match t with
              | '+' :: u => (['+'], u)
              | '-' :: u => (['-'], u)
              | _ => ([], t)
            let ds := sg.2.span Char.isDigit
            if ds.1 = [] then ([], fp.2) else (e :: (sg.1 ++ ds.1), ds.2)
          else ([], fp.2)
        | [] => ([], fp.2)
      .ok (Json.num ⟨signe.1 ++ ip.1 ++ fp.1 ++ ep.1⟩, ep.2)

/-- The pending work of the recursive-descent JSON parser (kept first-order
so that the whole parser is one structurally recursive function on fuel and
therefore kernel-reducible). -/
inductive PJob where
  | value : List Char → PJob
  | arrBody : List Char → PJob
  | arrTail : List Json → List Char → PJob
  | objBody : List Char → PJob
  | objMember : List (String × Json) → List Char → PJob
  | objTail : List (String × Json) → List Char → PJob

/-- The recursive-descent parser behind `json.loads`, mirroring the Python
json decoder: `value` scans one value (strings, `{`, `[`, the literals
`null`/`true`/`false`/`NaN`/`Infinity`/`-Infinity`, then numerals);
`arrBody`/`arrTail` scan array elements; `objBody`/`objMember`/`objTail`
scan object members. -/
def parseF : Nat → PJob → Except String (Json × List Char)
  | 0, _ => .error "profondeur maximale atteinte"
  | fuel + 1, job =>
    match job with
    | .value s =>
      match s with
      | [] => .error "Expecting value"
      | '"' :: rest =>
        match parseJString fuel [] rest with
        | .error e => .error e
        | .ok (str, r) => .ok (Json.str str, r)
      | '{' :: rest => parseF fuel (.objBody (skipWs rest))
      | '[' :: rest => parseF fuel (.arrBody (skipWs rest))
      | 'n' :: 'u' :: 'l' :: 'l' :: rest => .ok (.null, rest)
      | 't' :: 'r' :: 'u' :: 'e' :: rest => .ok (.bool true, rest)
      | 'f' :: 'a' :: 'l' :: 's' :: 'e' :: rest => .ok (.bool false, rest)
      | 'N' :: 'a' :: 'N' :: rest => .ok (.num "NaN", rest)
      | 'I' :: 'n' :: 'f' :: 'i' :: 'n' :: 'i' :: 't' :: 'y' :: rest => .ok (.num "Infinity", rest)
      | '-' :: 'I' :: 'n' :: 'f' :: 'i' :: 'n' :: 'i' :: 't' :: 'y' :: rest =>
        .ok (.num "-Infinity", rest)
      | _ => parseNumber s
    | .arrBody s =>
      match s with
      | ']' :: rest => .ok (.arr [], rest)
      | _ =>
        match parseF fuel (.value s) with
        | .error e => .error e
        | .ok (v, r) => parseF fuel (.arrTail [v] (skipWs r))
    | .arrTail acc s =>
      match s with
      | ',' :: rest =>
        match parseF fuel (.value (skipWs rest)) with
        | .error e => .error e
        | .ok (v, r) => parseF fuel (.arrTail (acc ++ [v]) (skipWs r))
      | ']' :: rest => .ok (.arr acc, rest)
      | _ => .error "Expecting delimiter"
    | .objBody s =>
      match s with
      | '}' :: rest => .ok (.obj [], rest)
      | '"' :: _ => parseF fuel (.objMember [] s)
      | _ => .error "Expecting property name enclosed in double quotes"
    | .objMember acc s =>
      match s with
      | '"' :: rest =>
        match parseJString fuel [] rest with
        | .error e => .error e
        | .ok (k, r) =>
          match skipWs r with
          | ':' :: r2 =>
            match parseF fuel (.value (skipWs r2)) with
            | .error e => .error e
            | .ok (v, r3) => parseF fuel (.objTail (acc ++ [(k, v)]) (skipWs r3))
          | _ => .error "Expecting colon delimiter"
      | _ => .error "Expecting property name enclosed in double quotes"
    | .objTail acc s =>
      match s with
      | ',' :: rest => parseF fuel (.objMember acc (skipWs rest))
      | '}' :: rest => .ok (.obj acc, rest)
      | _ => .error "Expecting delimiter"

/-- `json.loads` on character lists: skip surrounding whitespace, scan one
value, reject trailing garbage. The fuel is an upper bound on the recursion
depth, generous enough for any input of this length (CPython's
RecursionError on pathological nesting is not modelled). -/
def json_loads_l (s : List Char) : Except String Json :=
  match parseF (2 * s.length + 4) (.value (skipWs s)) with
  | .error e => .error e
  | .ok (v, rest) => if skipWs rest = [] then .ok v else .error "Extra data"

/-- `json.loads` on strings. -/
def json_loads (s : String) : Except String Json := json_loads_l s.data

/-! ### Fence stripping (re.sub of the two markers) -/

/-- The marker of the first substitution: the literal part of `r'```json\s*'`. -/
def fenceJson : List Char := "```json".data

/-- The marker of the second substitution: the literal part of `r'```\s*'`. -/
def fence3 : List Char := "```".data

/-- The backtick character. -/
def tick : Char := Char.ofNat 96

/-- One pass of `re.sub(marker + r'\s*', '', s)`: scan left to right; on a
match, discard the marker and the following whitespace greedily, then resume
scanning (matches are non-overlapping and found in the produced suffix order,
exactly re.sub for these patterns). State: `skip` counts marker characters
still to discard; `ws = true` means the greedy `\s*` of a match is being
consumed. -/
def sub_run (m : List Char) : Nat → Bool → List Char → List Char
  | _, _, [] => []
  | skip + 1, _, _ :: rest => sub_run m skip true rest
  | 0, true, c :: rest =>
    if pySpace c then sub_run m 0 true rest
    else if m.isPrefixOf (c :: rest) then sub_run m (m.length - 1) true rest
    else c :: sub_run m 0 false rest
  | 0, false, c :: rest =>
    if m.isPrefixOf (c :: rest) then sub_run m (m.length - 1) true rest
    else c :: sub_run m 0 false rest

/-- `re.sub(marker + r'\s*', '', s)` from the initial state. -/
def sub_fence (m : List Char) (s : List Char) : List Char := sub_run m 0 false s

/-- Does `m` occur as a contiguous run anywhere in `s`? -/
def occursIn (m : List Char) : List Char → Bool
  | [] => m.isEmpty
  | c :: rest => m.isPrefixOf (c :: rest) || occursIn m rest

/-- The whole pre-parsing treatment of the raw completion text
(src/app.py lines 166-169): `strip`, remove every ```json marker, remove
every ``` marker, `strip` again. -/
def pretraitement_l (s : List Char) : List Char :=
  stripL (sub_fence fence3 (sub_fence fenceJson (stripL s)))

/-- Pre-parsing treatment on strings. -/
def pretraitement (s : String) : String := ⟨pretraitement_l s.data⟩

/-- The full response parse of the request handler: fence stripping followed
by `json.loads`. -/
def parse_reponse (s : String) : Except String Json :=
  json_loads_l (pretraitement_l s.data)

/-! ### Result renderer (construire_html_resultats) -/

/-- The fixed no-results fragment. -/
def noResults : String := "<p>Aucun article correspondant trouvé dans la base.</p>"

/-- The inline error fragment of the generic `except` branch of the handler. -/
def messageErreur (e : String) : String :=
  "<p style=\x27color:red\x27>Erreur : " ++ e ++ "</p>"

/-- The read-more link emitted for a usable URL. -/
def lienLire (url : String) : String :=
  "<a href=\"" ++ url ++ "\" target=\"_blank\" class=\"btn-read\">Lire l\x27article &rarr;</a>"

/-- The `btn` value of one card: the read-more link when the stripped URL is
truthy and not the placeholder `"#"`, the empty string otherwise. -/
def bouton (article : Article) : String :=
  let url := pyStrip article.url
  if url ≠ "" ∧ url ≠ "#" then lienLire url else ""

/-- The card body with the btn fragment as a parameter. -/
def carteCorps (article : Article) (btn : String) : String :=
  "\n<div class=\"article-card\">\n    <h3>" ++ article.titre ++
  "</h3>\n    <p class=\"tags\">🏷️ " ++ article.tags ++
  "</p>\n    <p class=\"description\">" ++ article.description ++
  "</p>\n    " ++ btn ++ "\n</div>\n"

/-- One rendered article card, exactly the f-string of the source. -/
def carte (article : Article) : String :=
  let url := pyStrip article.url
  let has_url := url ≠ "" ∧ url ≠ "#"
  let btn := if has_url then lienLire url else ""
  carteCorps article btn

/-- The title comparison of the renderer:
`a['titre'].strip().lower() == titre.strip().lower()`. -/
def titreMatch (titre : String) (a : Article) : Bool :=
  pyLower (pyStrip a.titre) = pyLower (pyStrip titre)

/-- `next((a for a in articles if ...), None)` over a decoded JSON title.
Python evaluates the comparison lazily per candidate article, so a non-string
title raises (AttributeError on `.strip`) only when at least one article is
examined; that raise is the `.error` case. -/
def chercher_article (articles : List Article) (titre : Json) :
    Except String (Option Article) :=
  match articles with
  | [] => .ok none
  | a :: reste =>
    match titre with
    | .str t => if titreMatch t a then .ok (some a) else chercher_article reste (.str t)
    | _ => .error "AttributeError: strip"

/-- The rendering loop of `construire_html_resultats`, accumulating the html
string; a raised AttributeError propagates as `.error`. -/
def boucle_cartes (articles : List Article) (html : String) :
    List Json → Except String String
  | [] => .ok html
  | titre :: reste =>
    match chercher_article articles titre with
    | .error e => .error e
    | .ok none => boucle_cartes articles html reste
    | .ok (some a) => boucle_cartes articles (html ++ carte a) reste

/-- `construire_html_resultats`: render each matched title's card, fall back
to the fixed no-results fragment when nothing was rendered. -/
def construire_html_resultats (titres_trouves : List Json) (articles : List Article) :
    Except String String :=
  match boucle_cartes articles "" titres_trouves with
  | .error e => .error e
  | .ok html => .ok (if html = "" then noResults else html)

/-! ### Request handler (home, POST branch after the completion call) -/

/-- The computation of `resultat` in the handler once the model returned
`response.text` (src/app.py lines 166-186): strip fences, `json.loads`,
render when the value is a non-empty list; `json.JSONDecodeError` yields the
no-results fragment, any other exception yields the inline error fragment.
Total by construction: no exception escapes. -/
def traiter_reponse (rawText : String) (articles : List Article) : String :=
  match json_loads_l (pretraitement_l rawText.data) with
  | .error _ => noResults
  | .ok j =>
    match j with
    | .arr titres =>
      if 0 < titres.length then
        match construire_html_resultats titres articles with
        | .ok html => html
        | .error e => messageErreur e
      else noResults
    | _ => noResults

/-! ### Concrete sample data (shared by several witnesses) -/

/-- A sample CSV row. -/
def ligne_exemple : Row :=
  [("Titre", "Intro to X"), ("Description", "D"), ("Tags", "ml,intro"), ("URL", "http://a")]

/-- The article built from `ligne_exemple`. -/
def article_exemple : Article :=
  { titre := "Intro to X", description := "D", tags := "ml,intro", url := "http://a" }

/-- A loader environment whose sheet fetch succeeds with one row. -/
def env_exemple : LoaderEnv :=
  { sheetUrl := some "https://sheet"
    fetchSheet := .ok [ligne_exemple]
    localCsvFiles := []
    readLocalCsv := .error "fichier absent" }

/-- A loader environment in which both sources fail. -/
def env_en_panne : LoaderEnv :=
  { sheetUrl := some "https://sheet"
    fetchSheet := .error "timeout"
    localCsvFiles := ["sources/a.csv"]
    readLocalCsv := .error "IOError" }

/-- The card of the no-link example. -/
def article_diese : Article :=
  { titre := "Exact Title", description := "D", tags := "t", url := "#" }

/-- The card of the linked example. -/
def article_https : Article :=
  { titre := "Exact Title", description := "D", tags := "t", url := "https://x" }

/-- A duplicate of `article_exemple`'s title up to case and padding. -/
def article_double : Article :=
  { titre := " intro TO x ", description := "Dup", tags := "", url := "#" }

/-! ### Claim C2 — the catalog loader never raises and degrades to empty -/

/-- Claim C2: for every combination of remote-URL configuration, network
outcome and local-filesystem outcome, `charger_articles` returns a (possibly
empty) article list rather than propagating an exception; and when the sheet
fetch raises, it returns exactly `[]` if the local source is absent or its
read raises too. -/
theorem claim_C2 (env : LoaderEnv) :
    (∃ arts, charger_articles env = .ok arts) ∧
    (∀ e, env.fetchSheet = .error e →
      (env.localCsvFiles = [] → charger_articles env = .ok []) ∧
      (∀ e2, env.readLocalCsv = .error e2 → charger_articles env = .ok [])) := by
  constructor
  · cases hs : tentative_sheet env with
    | some arts => exact ⟨arts, by simp [charger_articles, hs]⟩
    | none =>
      by_cases hl : env.localCsvFiles = []
      · exact ⟨[], by simp [charger_articles, hs, hl]⟩
      · cases hr : env.readLocalCsv with
        | ok rows => exact ⟨parser_csv rows, by simp [charger_articles, hs, hl, hr]⟩
        | error e => exact ⟨[], by simp [charger_articles, hs, hl, hr]⟩
  · intro e he
    have hsheet : tentative_sheet env = none := by
      unfold tentative_sheet
      cases hsu : env.sheetUrl with
      | none => rfl
      | some url => by_cases hu : url = "" <;> simp [hu, he]
    constructor
    · intro hl
      simp [charger_articles, hsheet, hl]
    · intro e2 hr2
      by_cases hl : env.localCsvFiles = [] <;> simp [charger_articles, hsheet, hl, hr2]

/-- Witness for C2 at a concrete environment in which both sources fail. -/
theorem claim_C2_temoin : charger_articles env_en_panne = Except.ok [] :=
  ((claim_C2 env_en_panne).2 "timeout" rfl).2 "IOError" rfl

/-! ### Claim C1 — cache TTL behaviour (corrected) -/

/-- Claim C1 counterexample: a `get_donnees` call within the TTL window
(`100 - 0 ≤ 300`) nevertheless performs a reload (count 1) and returns a
snapshot different from the previously held one, because the cached article
list is empty. The claim "every call made within the TTL window returns the
previously held snapshot unchanged, without reloading" is therefore false as
stated. -/
theorem claim_C1_contre :
    (100 : Int) - cache_initial.last_refresh ≤ CACHE_TTL ∧
    get_donnees env_exemple 100 cache_initial =
      .ok (([article_exemple], ["intro", "ml"]),
        { articles := [article_exemple], tags := ["intro", "ml"], last_refresh := 100 }, 1) ∧
    [article_exemple] ≠ cache_initial.articles :=
  ⟨by decide, rfl, by decide⟩

/-- Claim C1 (amended): a call more than TTL seconds after the last refresh
triggers exactly one reload (Catalog Loader then Tag Extractor) before
returning; a call within the TTL window *whose cached article list is
non-empty* returns the previously held snapshot unchanged without reloading
(a within-TTL call with an empty cached article list also reloads). -/
theorem claim_C1_amende (env : LoaderEnv) (now : Int) (cache : EtatCache) :
    (∀ arts, now - cache.last_refresh > CACHE_TTL → charger_articles env = .ok arts →
      get_donnees env now cache =
        .ok ((arts, extraire_tags_uniques arts),
          { articles := arts, tags := extraire_tags_uniques arts, last_refresh := now }, 1)) ∧
    (now - cache.last_refresh ≤ CACHE_TTL → cache.articles ≠ [] →
      get_donnees env now cache = .ok ((cache.articles, cache.tags), cache, 0)) := by
  constructor
  · intro arts hgt hch
    unfold get_donnees
    rw [if_pos (Or.inl hgt), hch]
  · intro hle hne
    unfold get_donnees
    rw [if_neg]
    intro h
    exact h.elim (fun h1 => absurd hle (not_le.mpr h1)) hne

/-- Witness for the amended C1, both branches at concrete inputs: an expired
cache reloads with count 1; a fresh non-empty cache is served unchanged with
count 0. -/
theorem claim_C1_amende_temoin :
    get_donnees env_exemple 400 cache_initial =
      .ok (([article_exemple], ["intro", "ml"]),
        { articles := [article_exemple], tags := ["intro", "ml"], last_refresh := 400 }, 1) ∧
    get_donnees env_exemple 200
        { articles := [article_exemple], tags := ["intro", "ml"], last_refresh := 100 } =
      .ok (([article_exemple], ["intro", "ml"]),
        { articles := [article_exemple], tags := ["intro", "ml"], last_refresh := 100 }, 0) :=
  ⟨(claim_C1_amende env_exemple 400 cache_initial).1 [article_exemple] (by decide) rfl,
   (claim_C1_amende env_exemple 200
      { articles := [article_exemple], tags := ["intro", "ml"], last_refresh := 100 }).2
      (by decide) (by decide)⟩

/-! ### Claim C9 — articles and tags never observed out of sync -/

/-- Claim C9: the initial cache satisfies `tags = extraire_tags_uniques
articles`, every `get_donnees` call preserves that invariant, and the
returned pair is exactly the cached `(articles, tags)` pair after the call. -/
theorem claim_C9 :
    cache_initial.tags = extraire_tags_uniques cache_initial.articles ∧
    ∀ env now cache res c2 n,
      cache.tags = extraire_tags_uniques cache.articles →
      get_donnees env now cache = .ok (res, c2, n) →
      c2.tags = extraire_tags_uniques c2.articles ∧ res = (c2.articles, c2.tags) := by
  constructor
  · rfl
  · intro env now cache res c2 n hinv hget
    unfold get_donnees at hget
    by_cases hcond : now - cache.last_refresh > CACHE_TTL ∨ cache.articles = []
    · rw [if_pos hcond] at hget
      cases hch : charger_articles env with
      | error e =>
        rw [hch] at hget
        exact absurd hget (by simp)
      | ok arts =>
        rw [hch] at hget
        simp only [Except.ok.injEq, Prod.mk.injEq] at hget
        obtain ⟨h1, h2, _⟩ := hget
        subst h2
        exact ⟨rfl, h1.symm⟩
    · rw [if_neg hcond] at hget
      simp only [Except.ok.injEq, Prod.mk.injEq] at hget
      obtain ⟨h1, h2, _⟩ := hget
      subst h2
      exact ⟨hinv, h1.symm⟩

/-- Witness for C9 at a concrete expired cache: the refreshed cache is in
sync and is what the call returns. -/
theorem claim_C9_temoin :
    ({ articles := [article_exemple], tags := ["intro", "ml"], last_refresh := 400 } : EtatCache).tags =
      extraire_tags_uniques
        ({ articles := [article_exemple], tags := ["intro", "ml"], last_refresh := 400 } : EtatCache).articles ∧
    (([article_exemple], ["intro", "ml"]) =
      (({ articles := [article_exemple], tags := ["intro", "ml"], last_refresh := 400 } : EtatCache).articles,
       ({ articles := [article_exemple], tags := ["intro", "ml"], last_refresh := 400 } : EtatCache).tags)) :=
  claim_C9.2 env_exemple 400 cache_initial ([article_exemple], ["intro", "ml"])
    { articles := [article_exemple], tags := ["intro", "ml"], last_refresh := 400 } 1 rfl rfl

/-! ### Claim C4 — the tag extractor -/

theorem charsLe_cons (a b : Char) (as bs : List Char) :
    charsLe (a :: as) (b :: bs) =
      if a < b then true else if a = b then charsLe as bs else false := rfl

theorem charsLe_total : ∀ a b : List Char, charsLe a b = true ∨ charsLe b a = true := by
  intro a
  induction a with
  | nil => intro b; exact Or.inl rfl
  | cons x xs ih =>
    intro b
    cases b with
    | nil => exact Or.inr rfl
    | cons y ys =>
      rcases lt_trichotomy x y with h | h | h
      · left
        rw [charsLe_cons, if_pos h]
      · subst h
        rcases ih ys with h2 | h2
        · left
          rw [charsLe_cons, if_neg (lt_irrefl x), if_pos rfl]
          exact h2
        · right
          rw [charsLe_cons, if_neg (lt_irrefl x), if_pos rfl]
          exact h2
      · right
        rw [charsLe_cons, if_pos h]

theorem charsLe_trans :
    ∀ a b c : List Char, charsLe a b = true → charsLe b c = true → charsLe a c = true := by
  intro a
  induction a with
  | nil => intro b c _ _; rfl
  | cons x xs ih =>
    intro b c hab hbc
    cases b with
    | nil => exact absurd hab (by simp [charsLe])
    | cons y ys =>
      cases c with
      | nil => exact absurd hbc (by simp [charsLe])
      | cons z zs =>
        rw [charsLe_cons] at hab hbc ⊢
        by_cases h1 : x < y
        · by_cases h2 : y < z
          · rw [if_pos (lt_trans h1 h2)]
          · rw [if_neg h2] at hbc
            by_cases h3 : y = z
            · subst h3
              rw [if_pos h1]
            · rw [if_neg h3] at hbc
              exact absurd hbc (by simp)
        · rw [if_neg h1] at hab
          by_cases h3 : x = y
          · subst h3
            rw [if_pos rfl] at hab
            by_cases h2 : x < z
            · rw [if_pos h2]
            · rw [if_neg h2] at hbc ⊢
              by_cases h4 : x = z
              · rw [if_pos h4] at hbc ⊢
                exact ih ys zs hab hbc
              · rw [if_neg h4] at hbc
                exact absurd hbc (by simp)
          · rw [if_neg h3] at hab
            exact absurd hab (by simp)

theorem tousLesTags_cons (a : Article) (rest : List Article) :
    tousLesTags (a :: rest) = tokensDe a ++ tousLesTags rest := rfl

theorem mem_tousLesTags (x : String) (articles : List Article) :
    x ∈ tousLesTags articles ↔ ∃ art, art ∈ articles ∧ x ∈ tokensDe art := by
  induction articles with
  | nil => simp [tousLesTags]
  | cons a rest ih =>
    rw [tousLesTags_cons]
    simp only [List.mem_append, ih, List.mem_cons]
    constructor
    · rintro (h | ⟨art, hart, hx⟩)
      · exact ⟨a, Or.inl rfl, h⟩
      · exact ⟨art, Or.inr hart, hx⟩
    · rintro ⟨art, h | hart, hx⟩
      · subst h
        exact Or.inl hx
      · exact Or.inr ⟨art, hart, hx⟩

/-- Claim C4: for every article list, `extraire_tags_uniques` returns a
sequence with no duplicates, non-decreasing under lowercase lexicographic
comparison, containing exactly the non-empty stripped tokens obtained by
splitting each article's tags field on commas. -/
theorem claim_C4 (articles : List Article) :
    (extraire_tags_uniques articles).Nodup ∧
    List.Pairwise rTag (extraire_tags_uniques articles) ∧
    ∀ x, x ∈ extraire_tags_uniques articles ↔
      ∃ art, art ∈ articles ∧
        ∃ brut, brut ∈ pySplit art.tags ',' ∧ pyStrip brut = x ∧ x ≠ "" := by
  refine ⟨?_, ?_, ?_⟩
  · exact ((List.perm_insertionSort rTag _).nodup_iff).mpr (List.nodup_dedup _)
  · exact @List.sorted_insertionSort String rTag _
      ⟨fun a b => charsLe_total (pyLower a).data (pyLower b).data⟩
      ⟨fun a b c => charsLe_trans (pyLower a).data (pyLower b).data (pyLower c).data⟩ _
  · intro x
    rw [show x ∈ extraire_tags_uniques articles ↔ x ∈ (tousLesTags articles).dedup from
        (List.perm_insertionSort rTag _).mem_iff,
      List.mem_dedup, mem_tousLesTags]
    constructor
    · rintro ⟨art, hart, hx⟩
      rw [tokensDe, List.mem_filter, List.mem_map] at hx
      obtain ⟨⟨brut, hbrut, hstrip⟩, hne⟩ := hx
      exact ⟨art, hart, brut, hbrut, hstrip, by simpa using hne⟩
    · rintro ⟨art, hart, brut, hbrut, hstrip, hne⟩
      refine ⟨art, hart, ?_⟩
      rw [tokensDe, List.mem_filter, List.mem_map]
      exact ⟨⟨brut, hbrut, hstrip⟩, by simpa using hne⟩

/-- Witness for C4 at a concrete article: no duplicates, and the token "ml"
of the tags field "ml,intro" is present. -/
theorem claim_C4_temoin :
    (extraire_tags_uniques [article_exemple]).Nodup ∧
    "ml" ∈ extraire_tags_uniques [article_exemple] :=
  ⟨(claim_C4 [article_exemple]).1,
   ((claim_C4 [article_exemple]).2.2 "ml").mpr
     ⟨article_exemple, by decide, "ml", by decide, by decide, by decide⟩⟩

/-! ### Claim C6 — the read-more link condition -/

theorem lienLire_ne_vide (u : String) : lienLire u ≠ "" := by
  intro h
  have hl := congrArg String.length h
  rw [lienLire] at hl
  simp [String.length_append] at hl
  exact absurd hl.1.1 (by decide)

/-- Claim C6: each rendered card is the card body around its `btn` fragment,
and the read-more link is emitted if and only if the stripped URL is
non-empty and not the placeholder `"#"` (otherwise the fragment is empty). -/
theorem claim_C6 (article : Article) :
    carte article = carteCorps article (bouton article) ∧
    (bouton article = lienLire (pyStrip article.url) ↔
      (pyStrip article.url ≠ "" ∧ pyStrip article.url ≠ "#")) ∧
    (bouton article = "" ↔ ¬ (pyStrip article.url ≠ "" ∧ pyStrip article.url ≠ "#")) := by
  have hb : bouton article =
      if pyStrip article.url ≠ "" ∧ pyStrip article.url ≠ "#" then
        lienLire (pyStrip article.url)
      else "" := rfl
  refine ⟨rfl, ?_, ?_⟩
  · by_cases hcond : pyStrip article.url ≠ "" ∧ pyStrip article.url ≠ "#"
    · rw [hb, if_pos hcond]
      exact ⟨fun _ => hcond, fun _ => rfl⟩
    · rw [hb, if_neg hcond]
      exact ⟨fun h => absurd h.symm (lienLire_ne_vide _), fun h => absurd h hcond⟩
  · by_cases hcond : pyStrip article.url ≠ "" ∧ pyStrip article.url ≠ "#"
    · rw [hb, if_pos hcond]
      exact ⟨fun h => absurd h (lienLire_ne_vide _), fun hn => absurd hcond hn⟩
    · rw [hb, if_neg hcond]
      exact ⟨fun _ => hcond, fun _ => rfl⟩

/-- Witness for C6: with url `"#"` the link is omitted; with url
`"https://x"` it is included. -/
theorem claim_C6_temoin :
    bouton article_diese = "" ∧ bouton article_https = lienLire "https://x" := by
  constructor
  · exact (claim_C6 article_diese).2.2.mpr (by decide)
  · exact (claim_C6 article_https).2.1.mpr ⟨by decide, by decide⟩

/-! ### Claim C7 — title matching is first-match-wins, unmatched dropped -/

/-- A successful `next(...)` returns the first article matching the title:
the matched article satisfies the predicate and every article before it does
not. -/
theorem chercher_premier (t : String) :
    ∀ (articles : List Article) (a : Article),
      chercher_article articles (.str t) = .ok (some a) →
      titreMatch t a = true ∧
      ∃ avant apres, articles = avant ++ a :: apres ∧
        ∀ b ∈ avant, titreMatch t b = false := by
  intro articles
  induction articles with
  | nil =>
    intro a h
    exact absurd h (by simp [chercher_article])
  | cons hd tl ih =>
    intro a h
    by_cases hm : titreMatch t hd = true
    · simp only [chercher_article, if_pos hm, Except.ok.injEq, Option.some.injEq] at h
      subst h
      exact ⟨hm, [], tl, rfl, by simp⟩
    · simp only [chercher_article, if_neg hm] at h
      obtain ⟨hmatch, avant, apres, heq, havant⟩ := ih a h
      refine ⟨hmatch, hd :: avant, apres, by rw [heq]; rfl, ?_⟩
      intro b hb
      rcases List.mem_cons.mp hb with hbhd | hb2
      · subst hbhd
        revert hm
        cases titreMatch t b <;> simp
      · exact havant b hb2

/-- A title with no match contributes nothing to the rendered output. -/
theorem titre_sans_correspondance (articles : List Article) (t : String)
    (h : chercher_article articles (.str t) = .ok none) (reste : List Json) :
    construire_html_resultats (.str t :: reste) articles =
      construire_html_resultats reste articles := by
  have hb : ∀ html, boucle_cartes articles html (.str t :: reste) =
      boucle_cartes articles html reste := by
    intro html
    simp only [boucle_cartes, h]
  rw [construire_html_resultats, construire_html_resultats, hb]

/-- Claim C7: the renderer matches each returned title to the first article
whose title equals it after stripping and lowercasing (first match wins),
and every unmatched title is silently dropped from the output. -/
theorem claim_C7 (articles : List Article) (t : String) :
    (∀ a, chercher_article articles (.str t) = .ok (some a) →
      titreMatch t a = true ∧
      ∃ avant apres, articles = avant ++ a :: apres ∧
        ∀ b ∈ avant, titreMatch t b = false) ∧
    (chercher_article articles (.str t) = .ok none →
      ∀ reste, construire_html_resultats (.str t :: reste) articles =
        construire_html_resultats reste articles) :=
  ⟨fun a h => chercher_premier t articles a h,
   fun h reste => titre_sans_correspondance articles t h reste⟩

/-- Witness for C7: with two articles of equal normalized title the first one
matches, and an unmatched title is dropped. -/
theorem claim_C7_temoin :
    titreMatch "  INTRO TO X " article_exemple = true ∧
    construire_html_resultats [.str "NoSuchTitle"] [article_exemple] =
      construire_html_resultats [] [article_exemple] :=
  ⟨((claim_C7 [article_exemple, article_double] "  INTRO TO X ").1 article_exemple rfl).1,
   (claim_C7 [article_exemple] "NoSuchTitle").2 rfl []⟩

/-! ### Claim C8 — empty and fully-unmatched title lists -/

theorem boucle_sans_match (articles : List Article) (html : String) :
    ∀ titres, (∀ t ∈ titres, chercher_article articles t = .ok none) →
      boucle_cartes articles html titres = .ok html := by
  intro titres
  induction titres with
  | nil => intro _; rfl
  | cons t reste ih =>
    intro h
    simp only [boucle_cartes, h t (List.mem_cons_self t reste)]
    exact ih (fun u hu => h u (List.mem_cons_of_mem _ hu))

/-- Claim C8: rendering an empty title list, and rendering a title list in
which no title matches any article, both produce exactly the fixed
no-results fragment. -/
theorem claim_C8 (articles : List Article) :
    construire_html_resultats [] articles = .ok noResults ∧
    ∀ titres, (∀ t ∈ titres, chercher_article articles t = .ok none) →
      construire_html_resultats titres articles = .ok noResults := by
  constructor
  · rfl
  · intro titres h
    rw [construire_html_resultats, boucle_sans_match articles "" titres h]
    rfl

/-- Witness for C8 at a concrete catalog and unmatched title. -/
theorem claim_C8_temoin :
    construire_html_resultats [Json.str "NoSuchTitle"] [article_exemple] = .ok noResults :=
  (claim_C8 [article_exemple]).2 [Json.str "NoSuchTitle"]
    (fun t ht => by rw [List.mem_singleton] at ht; subst ht; rfl)

/-! ### Claim C3 — malformed completion responses are recovered locally -/

/-- Claim C3: whenever the pre-processed completion text is not valid JSON,
or parses to a JSON value that is not an array, the handler renders the
fixed no-results fragment (`traiter_reponse` is total, so no exception
escapes the request in either case). -/
theorem claim_C3 (raw : String) (articles : List Article) :
    (∀ e, json_loads_l (pretraitement_l raw.data) = .error e →
      traiter_reponse raw articles = noResults) ∧
    (∀ j, json_loads_l (pretraitement_l raw.data) = .ok j → estTableau j = false →
      traiter_reponse raw articles = noResults) := by
  constructor
  · intro e he
    simp only [traiter_reponse, he]
  · intro j hj hnot
    simp only [traiter_reponse, hj]
    cases j with
    | arr titres => simp [estTableau] at hnot
    | null => rfl
    | bool b => rfl
    | num n => rfl
    | str t => rfl
    | obj o => rfl

/-- Witness for C3: the invalid text `"not json"` and the non-array `"42"`
both render the no-results fragment. -/
theorem claim_C3_temoin :
    traiter_reponse "not json" [article_exemple] = noResults ∧
    traiter_reponse "42" [article_exemple] = noResults :=
  ⟨(claim_C3 "not json" [article_exemple]).1 "Expecting value" rfl,
   (claim_C3 "42" [article_exemple]).2 (.num "42") rfl rfl⟩

/-! ### re.sub scan lemmas -/

theorem fenceJson_forme : fenceJson = tick :: "``json".data := by decide

theorem fence3_forme : fence3 = tick :: "``".data := by decide

theorem isPrefixOf_nontick {mt : List Char} {c : Char} (hc : c ≠ tick) (r : List Char) :
    (tick :: mt).isPrefixOf (c :: r) = false := by
  simp only [List.isPrefixOf, Bool.and_eq_false_iff]
  left
  rw [beq_eq_false_iff_ne]
  exact fun h => hc h.symm

theorem occursIn_nontick (mt : List Char) :
    ∀ s, (∀ c ∈ s, c ≠ tick) → occursIn (tick :: mt) s = false := by
  intro s
  induction s with
  | nil => intro _; rfl
  | cons c cs ih =>
    intro h
    simp only [occursIn, Bool.or_eq_false_iff]
    exact ⟨isPrefixOf_nontick (h c (List.mem_cons_self c cs)) cs,
      ih (fun u hu => h u (List.mem_cons_of_mem _ hu))⟩

/-- A scan over marker-free text is the identity. -/
theorem sub_run_id {m : List Char} :
    ∀ {s}, occursIn m s = false → sub_run m 0 false s = s := by
  intro s
  induction s with
  | nil => intro _; rfl
  | cons c rest ih =>
    intro h
    simp only [occursIn, Bool.or_eq_false_iff] at h
    simp only [sub_run, h.1, Bool.false_eq_true, if_false]
    rw [ih h.2]

/-- Discarding an explicit block of matched marker characters. -/
theorem sub_run_skip_block (m : List Char) :
    ∀ a r, sub_run m a.length true (a ++ r) = sub_run m 0 true r := by
  intro a
  induction a with
  | nil => intro r; rfl
  | cons x xs ih =>
    intro r
    simp only [List.length_cons, List.cons_append, sub_run]
    exact ih r

/-- The greedy whitespace consumption after a match. -/
theorem sub_run_skip_ws (m : List Char) :
    ∀ w r, (∀ c ∈ w, pySpace c = true) →
      sub_run m 0 true (w ++ r) = sub_run m 0 true r := by
  intro w
  induction w with
  | nil => intro r _; rfl
  | cons c cs ih =>
    intro r h
    simp only [List.cons_append, sub_run, h c (List.mem_cons_self c cs), if_true]
    exact ih r (fun u hu => h u (List.mem_cons_of_mem _ hu))

/-- At a non-whitespace head the whitespace-consuming state behaves as the
normal scanning state. -/
theorem sub_run_true_false (m : List Char) (c : Char) (rest : List Char)
    (h : pySpace c = false) :
    sub_run m 0 true (c :: rest) = sub_run m 0 false (c :: rest) := by
  simp only [sub_run, h, Bool.false_eq_true, if_false]

/-- The scan passes over backtick-free text untouched. -/
theorem sub_run_sans_tick (mt : List Char) :
    ∀ x, (∀ c ∈ x, c ≠ tick) → ∀ r,
      sub_run (tick :: mt) 0 false (x ++ r) = x ++ sub_run (tick :: mt) 0 false r := by
  intro x
  induction x with
  | nil => intro _ r; rfl
  | cons c cs ih =>
    intro h r
    have hp := @isPrefixOf_nontick mt c (h c (List.mem_cons_self c cs)) (cs ++ r)
    simp only [List.cons_append, sub_run, List.append_eq] at hp ⊢
    simp only [hp, Bool.false_eq_true, if_false]
    rw [ih (fun u hu => h u (List.mem_cons_of_mem _ hu)) r]

theorem isPrefixOf_append_self : ∀ (m r : List Char), m.isPrefixOf (m ++ r) = true := by
  intro m
  induction m with
  | nil => intro r; simp [List.isPrefixOf]
  | cons a as ih =>
    intro r
    simp only [List.cons_append, List.isPrefixOf, beq_self_eq_true, Bool.true_and,
      List.append_eq]
    exact ih r

/-- After consuming a marker, backtick-free text reduces to its
whitespace-stripped remainder. -/
theorem sub_run_true_sans_tick (mt : List Char) :
    ∀ y, (∀ c ∈ y, c ≠ tick) →
      sub_run (tick :: mt) 0 true y = y.dropWhile pySpace := by
  intro y
  induction y with
  | nil => intro _; rfl
  | cons c cs ih =>
    intro h
    cases hc : pySpace c with
    | true =>
      simp only [sub_run, hc, if_true, List.dropWhile]
      rw [ih (fun u hu => h u (List.mem_cons_of_mem _ hu))]
    | false =>
      rw [sub_run_true_false _ _ _ hc]
      rw [sub_run_id (occursIn_nontick mt _ h)]
      simp [List.dropWhile, hc]

/-- The general mid-string removal of one marker occurrence in backtick-free
context, for either fence marker. -/
theorem sub_fence_milieu (mt : List Char) (x y : List Char)
    (hx : ∀ c ∈ x, c ≠ tick) (hy : ∀ c ∈ y, c ≠ tick) :
    sub_fence (tick :: mt) (x ++ (tick :: mt) ++ y) = x ++ y.dropWhile pySpace := by
  rw [sub_fence, List.append_assoc, sub_run_sans_tick mt x hx ((tick :: mt) ++ y)]
  congr 1
  have h1 : sub_run (tick :: mt) 0 false ((tick :: mt) ++ y) =
      sub_run (tick :: mt) ((tick :: mt).length - 1) true (mt ++ y) := by
    have hp := isPrefixOf_append_self (tick :: mt) y
    simp only [List.cons_append, List.append_eq] at hp ⊢
    simp only [sub_run, hp, if_true]
  rw [h1]
  simp only [List.length_cons, Nat.add_sub_cancel]
  rw [sub_run_skip_block (tick :: mt) mt y]
  exact sub_run_true_sans_tick mt y hy

/-! ### Claim C10 — fence stripping is global, not only leading/trailing -/

/-- Claim C10: the fence-stripping substitutions remove every occurrence of
the markers anywhere in the text (with the following whitespace), not only
leading/trailing ones: concretely a fence inside a JSON string value is
deleted before parsing (`["a```b"]` is handed to the parser as `["ab"]` and
parses to `["ab"]`), a marker in the middle of the text is deleted, and in
general stripping `x ++ marker ++ y` with backtick-free `x`, `y` yields
`x ++ y` less the whitespace following the marker. -/
theorem claim_C10 :
    pretraitement "[\"a```b\"]" = "[\"ab\"]" ∧
    parse_reponse "[\"a```b\"]" = .ok (.arr [.str "ab"]) ∧
    pretraitement "[1, ```json 2]" = "[1, 2]" ∧
    (∀ x y : List Char, (∀ c ∈ x, c ≠ tick) → (∀ c ∈ y, c ≠ tick) →
      sub_fence fenceJson (x ++ fenceJson ++ y) = x ++ y.dropWhile pySpace) ∧
    (∀ x y : List Char, (∀ c ∈ x, c ≠ tick) → (∀ c ∈ y, c ≠ tick) →
      sub_fence fence3 (x ++ fence3 ++ y) = x ++ y.dropWhile pySpace) := by
  refine ⟨rfl, rfl, rfl, ?_, ?_⟩
  · intro x y hx hy
    rw [fenceJson_forme]
    exact sub_fence_milieu _ x y hx hy
  · intro x y hx hy
    rw [fence3_forme]
    exact sub_fence_milieu _ x y hx hy

/-- Witness for C10's general parts at concrete backtick-free context. -/
theorem claim_C10_temoin :
    sub_fence fenceJson ("ab ".data ++ fenceJson ++ "  cd".data) = "ab cd".data ∧
    sub_fence fence3 ("ab ".data ++ fence3 ++ "  cd".data) = "ab cd".data :=
  ⟨claim_C10.2.2.2.1 "ab ".data "  cd".data (by decide) (by decide),
   claim_C10.2.2.2.2 "ab ".data "  cd".data (by decide) (by decide)⟩

/-! ### Support lemmas for fence-wrapping invariance (claim C5) -/

theorem nil_isPrefixOf (x : List Char) : List.isPrefixOf [] x = true := by
  cases x <;> simp [List.isPrefixOf]

theorem isPrefixOf_trans :
    ∀ a b c : List Char, a.isPrefixOf b = true → b.isPrefixOf c = true →
      a.isPrefixOf c = true := by
  intro a
  induction a with
  | nil => intro b c _ _; exact nil_isPrefixOf c
  | cons x xs ih =>
    intro b c hab hbc
    cases b with
    | nil => exact absurd hab (by simp [List.isPrefixOf])
    | cons y ys =>
      cases c with
      | nil => exact absurd hbc (by simp [List.isPrefixOf])
      | cons z zs =>
        simp only [List.isPrefixOf, Bool.and_eq_true, beq_iff_eq] at hab hbc ⊢
        exact ⟨hab.1.trans hbc.1, ih ys zs hab.2 hbc.2⟩

theorem isPrefixOf_append_ext :
    ∀ a b y : List Char, a.isPrefixOf b = true → a.isPrefixOf (b ++ y) = true := by
  intro a
  induction a with
  | nil => intro b y _; exact nil_isPrefixOf _
  | cons x xs ih =>
    intro b y hab
    cases b with
    | nil => exact absurd hab (by simp [List.isPrefixOf])
    | cons z zs =>
      simp only [List.cons_append, List.isPrefixOf, Bool.and_eq_true, beq_iff_eq,
        List.append_eq] at hab ⊢
      exact ⟨hab.1, ih zs y hab.2⟩

theorem occursIn_marqueur_vide (z : List Char) : occursIn [] z = true := by
  cases z with
  | nil => rfl
  | cons c rest => simp [occursIn, nil_isPrefixOf]

theorem occursIn_append_left (m : List Char) :
    ∀ x y, occursIn m x = true → occursIn m (x ++ y) = true := by
  intro x
  induction x with
  | nil =>
    intro y h
    have hm : m = [] := by
      revert h
      cases m <;> simp [occursIn, List.isEmpty]
    subst hm
    exact occursIn_marqueur_vide y
  | cons c cs ih =>
    intro y h
    simp only [occursIn, Bool.or_eq_true] at h ⊢
    rcases h with h | h
    · exact Or.inl (by
        have := isPrefixOf_append_ext m (c :: cs) y h
        simpa using this)
    · exact Or.inr (ih y h)

theorem occursIn_append_false_gauche {m x y : List Char}
    (h : occursIn m (x ++ y) = false) : occursIn m x = false := by
  cases hx : occursIn m x with
  | false => rfl
  | true => exact absurd (occursIn_append_left m x y hx) (by rw [h]; simp)

theorem occursIn_cons_false {m : List Char} {c : Char} {rest : List Char}
    (h : occursIn m (c :: rest) = false) : occursIn m rest = false := by
  simp only [occursIn, Bool.or_eq_false_iff] at h
  exact h.2

theorem occursIn_dropWhile {m : List Char} (f : Char → Bool) :
    ∀ {s}, occursIn m s = false → occursIn m (s.dropWhile f) = false := by
  intro s
  induction s with
  | nil => intro h; exact h
  | cons c cs ih =>
    intro h
    rw [List.dropWhile]
    cases hf : f c with
    | true => exact ih (occursIn_cons_false h)
    | false => exact h

theorem rstrip_decomposition (x : List Char) :
    x = rstrip x ++ (x.reverse.takeWhile pySpace).reverse := by
  conv_lhs => rw [← List.reverse_reverse x,
    ← List.takeWhile_append_dropWhile (p := pySpace) (l := x.reverse)]
  rw [List.reverse_append, rstrip]

theorem occursIn_rstrip {m x : List Char} (h : occursIn m x = false) :
    occursIn m (rstrip x) = false :=
  occursIn_append_false_gauche (x := rstrip x)
    (y := (x.reverse.takeWhile pySpace).reverse)
    (by rw [← rstrip_decomposition x]; exact h)

theorem occursIn_stripL {m x : List Char} (h : occursIn m x = false) :
    occursIn m (stripL x) = false :=
  occursIn_rstrip (occursIn_dropWhile pySpace h)

theorem occursIn_fenceJson_of_fence3 :
    ∀ {s}, occursIn fence3 s = false → occursIn fenceJson s = false := by
  intro s
  induction s with
  | nil => intro _; rfl
  | cons c cs ih =>
    intro h
    simp only [occursIn, Bool.or_eq_false_iff] at h ⊢
    refine ⟨?_, ih h.2⟩
    cases hp : fenceJson.isPrefixOf (c :: cs) with
    | false => rfl
    | true =>
      have h3 : fence3.isPrefixOf (c :: cs) = true :=
        isPrefixOf_trans fence3 fenceJson (c :: cs) (by decide) hp
      exact absurd h3 (by rw [h.1]; simp)

theorem prefixOf_through {m : List Char} {c : Char} (hc : c ∉ m) :
    ∀ {x y : List Char}, m.isPrefixOf (x ++ c :: y) = true → m.isPrefixOf x = true := by
  induction m with
  | nil => intro x y _; exact nil_isPrefixOf x
  | cons a as ih =>
    intro x y h
    cases x with
    | nil =>
      simp only [List.nil_append, List.isPrefixOf, Bool.and_eq_true, beq_iff_eq] at h
      exact absurd (h.1 ▸ List.mem_cons_self a as) hc
    | cons b bs =>
      simp only [List.cons_append, List.isPrefixOf, Bool.and_eq_true, beq_iff_eq,
        List.append_eq] at h ⊢
      exact ⟨h.1, ih (fun hmem => hc (List.mem_cons_of_mem a hmem)) h.2⟩

/-- Appending after a fence-free block commutes with the scan when a newline
separates the block from the remainder: the marker contains no newline, so no
match can straddle the boundary. -/
theorem sub_run_append_nl {m : List Char} (hm3 : fence3.isPrefixOf m = true)
    (hnl : '\n' ∉ m) :
    ∀ x, occursIn fence3 x = false → ∀ w,
      sub_run m 0 false (x ++ '\n' :: w) = x ++ sub_run m 0 false ('\n' :: w) := by
  intro x
  induction x with
  | nil => intro _ w; rfl
  | cons c cs ih =>
    intro h w
    simp only [occursIn, Bool.or_eq_false_iff] at h
    have hp : m.isPrefixOf (c :: (cs ++ '\n' :: w)) = false := by
      cases hp : m.isPrefixOf (c :: (cs ++ '\n' :: w)) with
      | false => rfl
      | true =>
        have h1 : m.isPrefixOf ((c :: cs) ++ '\n' :: w) = true := by
          simpa using hp
        have h2 : m.isPrefixOf (c :: cs) = true := prefixOf_through hnl h1
        have h3 : fence3.isPrefixOf (c :: cs) = true :=
          isPrefixOf_trans fence3 m (c :: cs) hm3 h2
        exact absurd h3 (by rw [h.1]; simp)
    simp only [List.cons_append, sub_run, List.append_eq, hp, Bool.false_eq_true, if_false]
    rw [ih h.2 w]
    simp only [sub_run]

/-- The scan state right after matching a marker at the head. -/
theorem sub_run_match_head (mt : List Char) (r : List Char) :
    sub_run (tick :: mt) 0 false ((tick :: mt) ++ r) = sub_run (tick :: mt) 0 true r := by
  have hp := isPrefixOf_append_self (tick :: mt) r
  simp only [List.cons_append, List.append_eq] at hp ⊢
  simp only [sub_run, hp, if_true, List.length_cons, Nat.add_sub_cancel]
  exact sub_run_skip_block (tick :: mt) mt r

theorem lstrip_cons_neg {c : Char} (h : pySpace c = false) (t : List Char) :
    lstrip (c :: t) = c :: t := by
  simp [lstrip, List.dropWhile, h]

theorem rstrip_append_neg {c : Char} (h : pySpace c = false) (y : List Char) :
    rstrip (y ++ [c]) = y ++ [c] := by
  rw [rstrip, List.reverse_append]
  simp [List.dropWhile, h]

theorem rstrip_append_pos {c : Char} (h : pySpace c = true) (y : List Char) :
    rstrip (y ++ [c]) = rstrip y := by
  rw [rstrip, rstrip, List.reverse_append]
  simp [List.dropWhile, h]

theorem dropWhile_head_neg (f : Char → Bool) :
    ∀ {l c t}, List.dropWhile f l = c :: t → f c = false := by
  intro l
  induction l with
  | nil => intro c t h; exact absurd h (by simp)
  | cons a as ih =>
    intro c t h
    rw [List.dropWhile] at h
    cases hf : f a with
    | true =>
      rw [hf] at h
      exact ih h
    | false =>
      rw [hf] at h
      simp only [List.cons.injEq] at h
      rw [← h.1]
      exact hf

theorem dropWhile_idem (f : Char → Bool) (l : List Char) :
    List.dropWhile f (List.dropWhile f l) = List.dropWhile f l := by
  cases h : List.dropWhile f l with
  | nil => rfl
  | cons c t =>
    rw [List.dropWhile, dropWhile_head_neg f h]

theorem rstrip_idem (y : List Char) : rstrip (rstrip y) = rstrip y := by
  rw [rstrip, rstrip, List.reverse_reverse, dropWhile_idem]

theorem lstrip_rstrip_lstrip (x : List Char) :
    lstrip (rstrip (lstrip x)) = rstrip (lstrip x) := by
  cases h : rstrip (lstrip x) with
  | nil => rfl
  | cons c t =>
    have hpre := rstrip_decomposition (lstrip x)
    rw [h] at hpre
    have hc : pySpace c = false := dropWhile_head_neg pySpace (l := x) hpre
    exact lstrip_cons_neg hc t

theorem stripL_idem (x : List Char) : stripL (stripL x) = stripL x := by
  rw [stripL, stripL, lstrip_rstrip_lstrip, rstrip_idem]

theorem mem_takeWhile_pos (f : Char → Bool) :
    ∀ {l : List Char} {c : Char}, c ∈ List.takeWhile f l → f c = true := by
  intro l
  induction l with
  | nil => intro c h; exact absurd h (by simp)
  | cons a as ih =>
    intro c h
    rw [List.takeWhile] at h
    cases hf : f a with
    | true =>
      rw [hf] at h
      rcases List.mem_cons.mp h with hca | hca
      · rw [hca]; exact hf
      · exact ih hca
    | false =>
      rw [hf] at h
      exact absurd h (by simp)

/-- Wrapping a fence-free payload in the leading ```json and trailing ```
fences does not change the pre-parsing treatment: the opening marker match
absorbs the separating newline and the payload's leading whitespace, the
closing marker is removed by the second substitution, and the final strip
removes the leftover newline. -/
theorem pretraitement_wrap (p : List Char) (hp : occursIn fence3 p = false) :
    pretraitement_l (fenceJson ++ '\n' :: (p ++ '\n' :: fence3)) = pretraitement_l p := by
  have hocc : occursIn fence3 (stripL p) = false := occursIn_stripL hp
  have hR : pretraitement_l p = rstrip (List.dropWhile pySpace p) := by
    unfold pretraitement_l sub_fence
    rw [sub_run_id (occursIn_fenceJson_of_fence3 hocc), sub_run_id hocc, stripL_idem]
    rfl
  have hstripW : stripL (fenceJson ++ '\n' :: (p ++ '\n' :: fence3)) =
      fenceJson ++ '\n' :: (p ++ '\n' :: fence3) := by
    have hl : lstrip (fenceJson ++ '\n' :: (p ++ '\n' :: fence3)) =
        fenceJson ++ '\n' :: (p ++ '\n' :: fence3) := by
      rw [fenceJson_forme, List.cons_append]
      exact lstrip_cons_neg (by decide) _
    have hfin : fenceJson ++ '\n' :: (p ++ '\n' :: fence3) =
        (fenceJson ++ '\n' :: (p ++ '\n' :: "``".data)) ++ [tick] := by
      rw [show fence3 = "``".data ++ [tick] from rfl]
      simp [List.append_assoc]
    have hr : rstrip (fenceJson ++ '\n' :: (p ++ '\n' :: fence3)) =
        fenceJson ++ '\n' :: (p ++ '\n' :: fence3) := by
      rw [hfin]
      exact rstrip_append_neg (by decide) _
    rw [stripL, show lstrip (fenceJson ++ '\n' :: (p ++ '\n' :: fence3)) =
      fenceJson ++ '\n' :: (p ++ '\n' :: fence3) from hl, hr]
  have hsub1 : sub_fence fenceJson (fenceJson ++ '\n' :: (p ++ '\n' :: fence3)) =
      sub_run (tick :: "``json".data) 0 true (List.dropWhile pySpace p ++ '\n' :: fence3) := by
    rw [sub_fence, fenceJson_forme, sub_run_match_head]
    rw [show ('\n' :: (p ++ '\n' :: fence3)) = ['\n'] ++ (p ++ '\n' :: fence3) from rfl]
    rw [sub_run_skip_ws _ ['\n'] _ (fun c hc => by rw [List.mem_singleton] at hc; subst hc; rfl)]
    conv_lhs => rw [← List.takeWhile_append_dropWhile (p := pySpace) (l := p), List.append_assoc]
    rw [sub_run_skip_ws _ _ _ (fun c hc => mem_takeWhile_pos pySpace hc)]
  have hoccq : occursIn fence3 (List.dropWhile pySpace p) = false :=
    occursIn_dropWhile pySpace hp
  cases hqe : List.dropWhile pySpace p with
  | nil =>
    have hL : pretraitement_l (fenceJson ++ '\n' :: (p ++ '\n' :: fence3)) = [] := by
      unfold pretraitement_l
      rw [hstripW, hsub1, hqe]
      rw [show sub_run (tick :: "``json".data) 0 true ([] ++ '\n' :: fence3) = fence3 from by decide]
      rw [show sub_fence fence3 fence3 = [] from by decide]
      rfl
    rw [hL, hR, hqe]
    rfl
  | cons c q2 =>
    have hc : pySpace c = false := dropWhile_head_neg pySpace hqe
    have hoccq2 : occursIn fence3 (c :: q2) = false := hqe ▸ hoccq
    have hL : pretraitement_l (fenceJson ++ '\n' :: (p ++ '\n' :: fence3)) =
        rstrip (c :: q2) := by
      unfold pretraitement_l
      rw [hstripW, hsub1, hqe]
      have e1 : sub_run (tick :: "``json".data) 0 true ((c :: q2) ++ '\n' :: fence3) =
          sub_run (tick :: "``json".data) 0 false ((c :: q2) ++ '\n' :: fence3) := by
        rw [List.cons_append]
        exact sub_run_true_false _ c _ hc
      rw [e1]
      rw [sub_run_append_nl (by decide) (by decide) (c :: q2) hoccq2 fence3]
      rw [show sub_run (tick :: "``json".data) 0 false ('\n' :: fence3) = '\n' :: fence3 from
        by decide]
      rw [show sub_fence fence3 ((c :: q2) ++ '\n' :: fence3) =
          (c :: q2) ++ sub_run fence3 0 false ('\n' :: fence3) from
        sub_run_append_nl (by decide) (by decide) (c :: q2) hoccq2 fence3]
      rw [show sub_run fence3 0 false ('\n' :: fence3) = ['\n'] from by decide]
      have hl2 : lstrip ((c :: q2) ++ ['\n']) = (c :: q2) ++ ['\n'] := by
        rw [List.cons_append]
        exact lstrip_cons_neg hc _
      rw [stripL, hl2, rstrip_append_pos (by decide) (c :: q2)]
    rw [hL, hR, hqe]

/-! ### Claim C5 — parsing is invariant under markdown fencing -/

/-- Claim C5: `parse("```json\n[\"A\"]\n```")` equals `parse("[\"A\"]")`
equals `["A"]`; and in general, wrapping a payload that contains no ```
fence of its own in a leading ```json fence and a trailing ``` fence does
not change the parse result. -/
theorem claim_C5 :
    (parse_reponse "```json\n[\"A\"]\n```" = .ok (.arr [.str "A"]) ∧
     parse_reponse "[\"A\"]" = .ok (.arr [.str "A"])) ∧
    ∀ p : String, occursIn fence3 p.data = false →
      parse_reponse ("```json\n" ++ p ++ "\n```") = parse_reponse p := by
  refine ⟨⟨rfl, rfl⟩, ?_⟩
  intro p hp
  have hdata : ("```json\n" ++ p ++ "\n```").data =
      fenceJson ++ '\n' :: (p.data ++ '\n' :: fence3) := rfl
  unfold parse_reponse
  rw [hdata, pretraitement_wrap p.data hp]

/-- Witness for C5's general part at the concrete payload of the spec. -/
theorem claim_C5_temoin :
    parse_reponse ("```json\n" ++ "[\"A\"]" ++ "\n```") = parse_reponse "[\"A\"]" :=
  claim_C5.2 "[\"A\"]" (by decide)
